import Mathlib

/-!
Verification of the to-do list component `src/components/TodoList.tsx`.

The file contains two versions of one React component. Version 2 (the
later half of the file) has tasks with an optional due date, an overdue
predicate, and a deadline sort; version 1 (the first half) has only
id/text/completed tasks. We embed both shallowly:

* a JavaScript `Date` is modelled as an `Int`, its timestamp in
  milliseconds since the epoch (`Date.prototype.getTime`); `startOfDay`
  (from date-fns) floors the timestamp to a multiple of `86400000`;
* `Date.now()`, read inside `addTask` to mint an id, becomes an explicit
  `now : String` argument (the result of `Date.now().toString()`);
* `String.prototype.trim` is modelled by `jsTrim`, which drops whitespace
  from both ends;
* `Array.prototype.sort`, stable since ES2019, is modelled by the stable
  insertion sort `sortStable`;
* React state (`tasks`, `inputValue`, `selectedDate`) becomes the
  structure `State`, and each event handler a function `State → State`.
-/

namespace TodoList

/-- The `Task` interface of version 2 of the component: version 1's tasks
are the same minus `dueDate`.  A due date is a timestamp in milliseconds. -/
structure Task where
  id : String
  text : String
  completed : Bool
  dueDate : Option Int
  deriving DecidableEq, Repr

/-- The `Task` interface of version 1 of the component (no due date). -/
structure Task1 where
  id : String
  text : String
  completed : Bool
  deriving DecidableEq, Repr

/-- React state of version 2: `useState` hooks `tasks`, `inputValue`,
`selectedDate` (the sort mode is handled separately by `getSortedTasks`). -/
structure State where
  tasks : List Task
  inputValue : String
  selectedDate : Option Int
  deriving DecidableEq, Repr

/-- React state of version 1: `useState` hooks `tasks` and `inputValue`. -/
structure State1 where
  tasks : List Task1
  inputValue : String
  deriving DecidableEq, Repr

/-- Model of JavaScript `String.prototype.trim`: remove leading and
trailing whitespace. -/
def jsTrim (s : String) : String :=
  String.mk (((s.data.dropWhile Char.isWhitespace).reverse.dropWhile Char.isWhitespace).reverse)

/-- Version 2's `addTask` handler: trim the input; if the trimmed text is
empty, return (leaving all state unchanged); otherwise append a task with
id `Date.now().toString()` (the `now` argument), the trimmed text,
`completed := false` and the currently selected due date, then clear the
input field and the date selection. -/
def addTask (now : String) (s : State) : State :=
  let trimmedText := jsTrim s.inputValue
  if trimmedText = "" then s
  else
    let newTask : Task :=
      { id := now, text := trimmedText, completed := false, dueDate := s.selectedDate }
    { tasks := s.tasks ++ [newTask], inputValue := "", selectedDate := none }

/-- Version 2's `toggleComplete`: `tasks.map(task => task.id === id ?
{...task, completed: !task.completed} : task)`. -/
def toggleComplete (id : String) (tasks : List Task) : List Task :=
  tasks.map (fun task => if task.id = id then { task with completed := !task.completed } else task)

/-- Version 2's `deleteTask`: `tasks.filter(task => task.id !== id)`. -/
def deleteTask (id : String) (tasks : List Task) : List Task :=
  tasks.filter (fun task => task.id != id)

/-- Version 1's `addTask` handler (identical to version 2's, minus the due
date). -/
def addTask1 (now : String) (s : State1) : State1 :=
  let trimmedText := jsTrim s.inputValue
  if trimmedText = "" then s
  else
    let newTask : Task1 := { id := now, text := trimmedText, completed := false }
    { tasks := s.tasks ++ [newTask], inputValue := "" }

/-- Version 1's `toggleComplete`. -/
def toggleComplete1 (id : String) (tasks : List Task1) : List Task1 :=
  tasks.map (fun task => if task.id = id then { task with completed := !task.completed } else task)

/-- Version 1's `deleteTask`. -/
def deleteTask1 (id : String) (tasks : List Task1) : List Task1 :=
  tasks.filter (fun task => task.id != id)

/-- Milliseconds per day, the granularity of `startOfDay`. -/
def msPerDay : Int := 86400000

/-- Model of date-fns `startOfDay`: floor a timestamp to the start of its
calendar day (floor division, as JavaScript day arithmetic floors for
timestamps before the epoch as well). -/
def startOfDay (t : Int) : Int :=
  Int.fdiv t msPerDay * msPerDay

/-- The calendar day of a timestamp: its day index since the epoch. -/
def calendarDay (t : Int) : Int :=
  Int.fdiv t msPerDay

/-- Model of date-fns `isBefore` on timestamps. -/
def isBefore (a b : Int) : Bool :=
  decide (a < b)

/-- Version 2's `isOverdue`: false when the task has no due date or is
completed; otherwise compare start-of-day of the due date with
start-of-day of `today` (`new Date()` in the source, here a parameter). -/
def isOverdue (task : Task) (today : Int) : Bool :=
  match task.dueDate with
  | none => false
  | some dueDate =>
    if task.completed then false
    else isBefore (startOfDay dueDate) (startOfDay today)

/-- The `SortOption` type of the component: `"none" | "deadline"`. -/
inductive SortOption where
  | none
  | deadline
  deriving DecidableEq, Repr

/-- The comparator passed to `sort` in `getSortedTasks`, returning a
negative, zero or positive integer exactly as the source does:
completed tasks last; both dated ⇒ `getTime()` difference; dated before
undated; otherwise `0`. -/
def compareTasks (a b : Task) : Int :=
  if a.completed != b.completed then
    if a.completed then 1 else -1
  else
    match a.dueDate, b.dueDate with
    | some da, some db => da - db
    | some _, Option.none => -1
    | Option.none, some _ => 1
    | Option.none, Option.none => 0

/-- Stable insertion of `x` into `l`: `x` is placed before the first
element it compares strictly less than, hence after every earlier-inserted
element it ties with. -/
def insertBy {α : Type} (lt : α → α → Bool) (x : α) : List α → List α
  | [] => [x]
  | y :: ys => if lt x y then x :: y :: ys else y :: insertBy lt x ys

/-- Stable insertion sort, the model of `Array.prototype.sort` (stable per
ES2019) with a consistent comparator: elements are inserted in their
original order, and `insertBy` keeps ties in insertion order. -/
def sortStable {α : Type} (lt : α → α → Bool) (l : List α) : List α :=
  l.foldl (fun acc x => insertBy lt x acc) []

/-- Version 2's `getSortedTasks`: the identity for mode `"none"`,
otherwise a stable sort of a copy of `tasks` by `compareTasks`. -/
def getSortedTasks (sortMode : SortOption) (tasks : List Task) : List Task :=
  if sortMode = SortOption.none then tasks
  else sortStable (fun a b => decide (compareTasks a b < 0)) tasks

/-- The specification's lexicographic deadline comparator, written from
the spec's words: (1) incomplete before completed; (2) among equal
completion status, dated before undated; (3) both dated, ascending by
date; (4) otherwise a tie. -/
def specCompare (a b : Task) : Ordering :=
  if a.completed = b.completed then
    match a.dueDate, b.dueDate with
    | some da, some db =>
      if da < db then Ordering.lt else if db < da then Ordering.gt else Ordering.eq
    | some _, Option.none => Ordering.lt
    | Option.none, some _ => Ordering.gt
    | Option.none, Option.none => Ordering.eq
  else if a.completed then Ordering.gt else Ordering.lt

/-- Strict order on index-tagged tasks: `specCompare` first, original
index as the explicit tiebreak — the spec's description of a stable sort. -/
def specPairBefore (p q : Nat × Task) : Bool :=
  match specCompare p.2 q.2 with
  | Ordering.lt => true
  | Ordering.eq => decide (p.1 < q.1)
  | Ordering.gt => false

/-- Tag each task with its insertion index, starting from `n`. -/
def withIndices (n : Nat) : List Task → List (Nat × Task)
  | [] => []
  | t :: ts => (n, t) :: withIndices (n + 1) ts

/-- The specification's deadline ordering: sort the index-tagged tasks by
the strict order `specPairBefore` (a total strict order, so any sort gives
the unique stable result) and drop the indices. -/
def specDeadlineSort (tasks : List Task) : List Task :=
  (sortStable specPairBefore (withIndices 0 tasks)).map Prod.snd

/-- The shape of one task inside the JSON text stored under the
`"tasks"` key: fields `id`, `text`, `completed` verbatim, and the due
date, when present, as the text the platform's date serializer produced
(`JSON.stringify` calls `Date.prototype.toJSON`). -/
structure StoredTask where
  id : String
  text : String
  completed : Bool
  dueDate : Option String
  deriving DecidableEq, Repr

/-- A decimal digit as a character. Only digits `0`–`9` arise (the digits
of a base-10 expansion). -/
def digitToChar (d : Nat) : Char :=
  match d with
  | 0 => '0'
  | 1 => '1'
  | 2 => '2'
  | 3 => '3'
  | 4 => '4'
  | 5 => '5'
  | 6 => '6'
  | 7 => '7'
  | 8 => '8'
  | _ => '9'

/-- Inverse of `digitToChar` on decimal digit characters. -/
def charToDigit (c : Char) : Nat :=
  match c with
  | '0' => 0
  | '1' => 1
  | '2' => 2
  | '3' => 3
  | '4' => 4
  | '5' => 5
  | '6' => 6
  | '7' => 7
  | '8' => 8
  | _ => 9

/-- Big-endian decimal digits of a natural number. -/
def encNat (n : Nat) : List Char :=
  ((Nat.digits 10 n).map digitToChar).reverse

/-- Read back a big-endian decimal digit string. -/
def decNat (cs : List Char) : Nat :=
  Nat.ofDigits 10 (cs.reverse.map charToDigit)

/-- Model of the platform's round-trippable date-to-text encoding
(`Date.prototype.toJSON`, ISO-8601 in the browser): the timestamp in
decimal, prefixed by its sign, never the empty string.  The exact text
format is outside the repository; what the component relies on — and what
this model keeps — is that `new Date(s)` inverts it. -/
def dateEncode (t : Int) : String :=
  if t < 0 then String.mk ('-' :: encNat (Int.toNat (-t)))
  else String.mk ('+' :: encNat (Int.toNat t))

/-- Model of `new Date(s)` on texts produced by `dateEncode`; other texts
get an arbitrary timestamp (the browser would give an invalid date). -/
def dateDecode (s : String) : Int :=
  match s.data with
  | '-' :: cs => -(decNat cs : Int)
  | '+' :: cs => (decNat cs : Int)
  | cs => (decNat cs : Int)

/-- Serialization of one task, as `JSON.stringify` lays it out (an absent
`dueDate` is omitted from the JSON, hence `Option`). -/
def serializeTask (t : Task) : StoredTask :=
  { id := t.id, text := t.text, completed := t.completed,
    dueDate := t.dueDate.map dateEncode }

/-- The save effect: the whole task sequence is serialized on every
change. -/
def serializeTasks (tasks : List Task) : List StoredTask :=
  tasks.map serializeTask

/-- The load mapping of version 2: `{...task, dueDate: task.dueDate ?
new Date(task.dueDate) : undefined}` — note the truthiness test, under
which an empty string also yields `undefined`. -/
def reviveTask (st : StoredTask) : Task :=
  { id := st.id, text := st.text, completed := st.completed,
    dueDate :=
      match st.dueDate with
      | Option.none => Option.none
      | some s => if s = "" then Option.none else some (dateDecode s) }

/-- The tasks installed by a successful load. -/
def reviveTasks (stored : List StoredTask) : List Task :=
  stored.map reviveTask

/-- The startup load effect.  Its input is what `localStorage.getItem`
plus `JSON.parse` produced: `Option.none` when the key is absent, `.error`
when parsing the stored text threw, `.ok` with the parsed array otherwise
(the parser itself is the platform's, outside the repository).  It returns
the resulting task list together with the list of diagnostics written to
`console.error`; the initial `useState` value `[]` stands when nothing is
installed. -/
def loadFromStorage (saved : Option (Except String (List StoredTask))) :
    List Task × List String :=
  match saved with
  | Option.none => ([], [])
  | some (Except.ok stored) => (reviveTasks stored, [])
  | some (Except.error _) => ([], ["Failed to parse tasks from localStorage"])

/-- The user interactions that drive the component's state. `clickAdd`
carries the value of `Date.now().toString()` at the moment of the click. -/
inductive Action where
  | setInput (value : String)
  | setDate (d : Option Int)
  | clickAdd (now : String)
  | clickToggle (id : String)
  | clickDelete (id : String)
  deriving DecidableEq, Repr

/-- One interaction step of version 2. -/
def applyAction (s : State) : Action → State
  | Action.setInput v => { s with inputValue := v }
  | Action.setDate d => { s with selectedDate := d }
  | Action.clickAdd now => addTask now s
  | Action.clickToggle id => { s with tasks := toggleComplete id s.tasks }
  | Action.clickDelete id => { s with tasks := deleteTask id s.tasks }

/-- Run a sequence of interactions on version 2. -/
def runActions (s : State) : List Action → State
  | [] => s
  | a :: rest => runActions (applyAction s a) rest

/-- One interaction step of version 1. Version 1 has no date picker, so a
`setDate` interaction does not exist for it and changes nothing. -/
def applyAction1 (s : State1) : Action → State1
  | Action.setInput v => { s with inputValue := v }
  | Action.setDate _ => s
  | Action.clickAdd now => addTask1 now s
  | Action.clickToggle id => { s with tasks := toggleComplete1 id s.tasks }
  | Action.clickDelete id => { s with tasks := deleteTask1 id s.tasks }

/-- Run a sequence of interactions on version 1. -/
def runActions1 (s : State1) : List Action → State1
  | [] => s
  | a :: rest => runActions1 (applyAction1 s a) rest

/-- Forget the due date: the projection of a version-2 task onto
version 1's fields. -/
def projTask (t : Task) : Task1 :=
  { id := t.id, text := t.text, completed := t.completed }

/-- Projection of version-2 state onto version-1 state. -/
def projState (s : State) : State1 :=
  { tasks := s.tasks.map projTask, inputValue := s.inputValue }

/-- The ids present in a task list. -/
def idsOf (tasks : List Task) : List String :=
  tasks.map Task.id

/-- `freshOk s acts` says that along the run of `acts` from `s`, every
add that actually inserts a task reads a `Date.now()` value whose string
is not an existing id — the adds happen in fresh milliseconds. -/
def freshOk (s : State) : List Action → Bool
  | [] => true
  | a :: rest =>
    (match a with
     | Action.clickAdd now => (jsTrim s.inputValue = "") || !((idsOf s.tasks).contains now)
     | _ => true)
    && freshOk (applyAction s a) rest

/-- The component's initial state: empty task list, empty input, no date. -/
def initialState : State :=
  { tasks := [], inputValue := "", selectedDate := Option.none }

/-- A reference "today" for the end-to-end example: two days after the
epoch. -/
def exToday : Int := 172800000

/-- Example task A: no due date (added first). -/
def exA : Task := { id := "1", text := "A", completed := false, dueDate := Option.none }

/-- Example task B: due yesterday relative to `exToday`. -/
def exB : Task := { id := "2", text := "B", completed := false, dueDate := some 86400000 }

/-- Example task C: due tomorrow relative to `exToday`. -/
def exC : Task := { id := "3", text := "C", completed := false, dueDate := some 259200000 }

/-- The interactions of the end-to-end example: add A with no date, B due
yesterday, C due tomorrow. -/
def exActions : List Action :=
  [Action.setInput "A", Action.clickAdd "1",
   Action.setInput "B", Action.setDate (some 86400000), Action.clickAdd "2",
   Action.setInput "C", Action.setDate (some 259200000), Action.clickAdd "3"]

/-- A store in which two tasks share an id — reachable, because `addTask`
ids come from `Date.now()` and two adds in the same millisecond collide. -/
def dupList : List Task :=
  [{ id := "1", text := "a", completed := false, dueDate := Option.none },
   { id := "1", text := "b", completed := false, dueDate := Option.none }]

/-- A state about to add while `Date.now().toString()` equals an id
already in the store. -/
def collideState : State :=
  { tasks := [{ id := "100", text := "existing", completed := false, dueDate := Option.none }],
    inputValue := "Buy milk",
    selectedDate := Option.none }

/-- Start-of-day timestamps compare exactly as calendar days do. -/
theorem isBefore_startOfDay (a b : Int) :
    isBefore (startOfDay a) (startOfDay b) = true ↔ calendarDay a < calendarDay b := by
  simp only [isBefore, startOfDay, calendarDay, decide_eq_true_eq]
  exact mul_lt_mul_right (show (0 : Int) < msPerDay by decide)

/-- C2: `isOverdue` holds exactly when the task has a due date, is not
completed, and the due date's calendar day strictly precedes today's; in
particular a completed task is never overdue and an incomplete task due
today or later is not overdue. -/
theorem isOverdue_spec (task : Task) (today : Int) :
    (isOverdue task today = true ↔
      ∃ due, task.dueDate = some due ∧ task.completed = false ∧
        calendarDay due < calendarDay today)
    ∧ (task.completed = true → isOverdue task today = false)
    ∧ (∀ due, task.dueDate = some due → calendarDay today ≤ calendarDay due →
        isOverdue task today = false) := by
  refine ⟨?_, ?_, ?_⟩
  · cases hdue : task.dueDate with
    | none => simp [isOverdue, hdue]
    | some due =>
      cases hc : task.completed
      · simp [isOverdue, hdue, hc, isBefore_startOfDay]
      · simp [isOverdue, hdue, hc]
  · intro hc
    cases hdue : task.dueDate <;> simp [isOverdue, hdue, hc]
  · intro due hdue hle
    cases hc : task.completed
    · simp only [isOverdue, hdue, hc, if_false, Bool.false_eq_true]
      rw [Bool.eq_false_iff]
      intro hcontra
      rw [isBefore_startOfDay] at hcontra
      omega
    · simp [isOverdue, hdue, hc]

/-- Witness for C2: B (due yesterday) is overdue at `exToday`; C (due
tomorrow) is not. -/
theorem isOverdue_spec_witness :
    isOverdue exB exToday = true ∧ isOverdue exC exToday = false :=
  ⟨(isOverdue_spec exB exToday).1.mpr ⟨86400000, rfl, rfl, by decide⟩,
   (isOverdue_spec exC exToday).2.2 259200000 rfl (by decide)⟩

/-- C3: adding with empty or whitespace-only input leaves the task
sequence unchanged. -/
theorem addTask_empty_noop (now : String) (s : State) (h : jsTrim s.inputValue = "") :
    (addTask now s).tasks = s.tasks := by
  simp [addTask, h]

/-- Witness for C3: adding with a whitespace-only input on the empty
store keeps the store empty. -/
theorem addTask_empty_noop_witness :
    (addTask "7" { tasks := [], inputValue := "   ", selectedDate := Option.none }).tasks = [] :=
  addTask_empty_noop "7" { tasks := [], inputValue := "   ", selectedDate := Option.none }
    (by decide)

/-- Double toggle is the identity on the task list. -/
theorem toggleComplete_toggleComplete (id : String) (ts : List Task) :
    toggleComplete id (toggleComplete id ts) = ts := by
  induction ts with
  | nil => rfl
  | cons t rest ih =>
    obtain ⟨tid, ttext, tcomp, tdue⟩ := t
    by_cases h : tid = id
    · subst h
      simp_all [toggleComplete]
    · simp_all [toggleComplete]

/-- Toggling an id that no task carries changes nothing. -/
theorem toggleComplete_not_mem (id : String) (ts : List Task) (h : id ∉ idsOf ts) :
    toggleComplete id ts = ts := by
  induction ts with
  | nil => rfl
  | cons t rest ih =>
    simp only [idsOf, List.map_cons, List.mem_cons] at h
    push_neg at h
    simp only [toggleComplete, List.map_cons]
    rw [if_neg (fun hh => h.1 hh.symm)]
    have : toggleComplete id rest = rest := ih (by simpa [idsOf] using h.2)
    simpa [toggleComplete] using this

/-- C5: toggling twice restores the list; toggling an absent id is a
no-op; and each application keeps the length and rewrites each position
pointwise, leaving every field except `completed` of matching tasks, and
every field of non-matching tasks, unchanged. -/
theorem toggleComplete_spec (id : String) (ts : List Task) :
    toggleComplete id (toggleComplete id ts) = ts
    ∧ (id ∉ idsOf ts → toggleComplete id ts = ts)
    ∧ (toggleComplete id ts).length = ts.length
    ∧ ∀ i : Nat, (toggleComplete id ts)[i]? =
        (ts[i]?).map
          (fun t => if t.id = id then { t with completed := !t.completed } else t) := by
  refine ⟨toggleComplete_toggleComplete id ts, toggleComplete_not_mem id ts, ?_, ?_⟩
  · simp [toggleComplete]
  · intro i
    simp [toggleComplete]

/-- Witness for C5: on the example list, toggling id `"1"` twice restores
the list, and toggling the absent id `"9"` changes nothing. -/
theorem toggleComplete_spec_witness :
    toggleComplete "1" (toggleComplete "1" [exA, exB]) = [exA, exB]
    ∧ toggleComplete "9" [exA, exB] = [exA, exB] :=
  ⟨(toggleComplete_spec "1" [exA, exB]).1,
   (toggleComplete_spec "9" [exA, exB]).2.1 (by decide)⟩

/-- C4 counterexample: the id `addTask` mints is `Date.now().toString()`
with no uniqueness check, so when the clock reads a value that is already
an id in the store — here `"100"` — the appended task's id duplicates an
existing one: the new id is not fresh. -/
theorem addTask_appends_cex :
    idsOf (addTask "100" collideState).tasks = ["100", "100"]
    ∧ ¬ (idsOf (addTask "100" collideState).tasks).Nodup := by
  decide

/-- C4 (amended): with non-empty trimmed input, `addTask` appends exactly
one task at the end carrying the trimmed text, the id minted from the
current timestamp (not guaranteed distinct from existing ids),
`completed = false` and the selected due date; earlier tasks are
untouched and the input and date selection are cleared. -/
theorem addTask_appends (now : String) (s : State) (h : jsTrim s.inputValue ≠ "") :
    addTask now s =
      { tasks := s.tasks ++
          [{ id := now, text := jsTrim s.inputValue, completed := false,
             dueDate := s.selectedDate }],
        inputValue := "",
        selectedDate := Option.none }
    ∧ (addTask now s).tasks.length = s.tasks.length + 1 := by
  constructor
  · simp [addTask, h]
  · simp [addTask, h]

/-- Witness for C4: adding "Buy milk" with no date to the empty store. -/
theorem addTask_appends_witness :
    addTask "1" { tasks := [], inputValue := "Buy milk", selectedDate := Option.none } =
      { tasks := [{ id := "1", text := "Buy milk", completed := false, dueDate := Option.none }],
        inputValue := "",
        selectedDate := Option.none } := by
  exact (addTask_appends "1"
    { tasks := [], inputValue := "Buy milk", selectedDate := Option.none } (by decide)).1

/-- Deleting an id that no task carries changes nothing. -/
theorem deleteTask_not_mem (id : String) (ts : List Task) (h : id ∉ idsOf ts) :
    deleteTask id ts = ts := by
  induction ts with
  | nil => rfl
  | cons t rest ih =>
    simp only [idsOf, List.map_cons, List.mem_cons] at h
    push_neg at h
    have h1 : (t.id != id) = true := by
      simp only [bne_iff_ne, ne_eq]
      exact fun hh => h.1 hh.symm
    have h2 : deleteTask id rest = rest := ih (by simpa [idsOf] using h.2)
    simp only [deleteTask, List.filter_cons, h1, if_true]
    exact congrArg (List.cons t) (by simpa [deleteTask] using h2)

/-- No task with the deleted id survives `deleteTask`. -/
theorem deleteTask_id_not_mem (id : String) (ts : List Task) :
    id ∉ idsOf (deleteTask id ts) := by
  simp only [idsOf, deleteTask, List.mem_map]
  rintro ⟨t, ht, rfl⟩
  have := (List.mem_filter.mp ht).2
  simp [bne_iff_ne] at this

/-- With pairwise-distinct ids, deleting a present id removes exactly one
task. -/
theorem length_deleteTask (id : String) (ts : List Task)
    (h1 : (idsOf ts).Nodup) (h2 : id ∈ idsOf ts) :
    (deleteTask id ts).length + 1 = ts.length := by
  induction ts with
  | nil => simp [idsOf] at h2
  | cons t rest ih =>
    simp only [idsOf, List.map_cons, List.nodup_cons] at h1
    simp only [idsOf, List.map_cons, List.mem_cons] at h2
    by_cases ht : t.id = id
    · have hrest : id ∉ idsOf rest := by
        rw [← ht]
        simpa [idsOf] using h1.1
      have hbne : (t.id != id) = false := by simp [ht]
      have hr : List.filter (fun task => task.id != id) rest = rest := by
        simpa [deleteTask] using deleteTask_not_mem id rest hrest
      simp [deleteTask, List.filter_cons, hbne, hr]
    · have h2' : id ∈ idsOf rest := by
        rcases h2 with h2 | h2
        · exact absurd h2.symm ht
        · simpa [idsOf] using h2
      have hbne : (t.id != id) = true := by simp [bne_iff_ne, ht]
      have hlen := ih h1.2 h2'
      simp only [deleteTask] at hlen
      simp only [deleteTask, List.filter_cons, hbne, if_true, List.length_cons]
      omega

/-- C6 counterexample: in a store where two tasks share id `"1"` (possible
because ids are minted from `Date.now()`), deleting `"1"` removes both
tasks — the length drops by two, not exactly one. -/
theorem deleteTask_spec_cex :
    "1" ∈ idsOf dupList ∧ dupList.length = 2 ∧ (deleteTask "1" dupList).length = 0 := by
  decide

/-- C6 (amended): deleting an absent id is a no-op, and — for a store
whose ids are pairwise distinct, the store invariant — deleting a present
id removes exactly one task, afterwards no task with that id remains, and
the remaining tasks keep their values and relative order (the result is a
sublist of the original containing every task with a different id). -/
theorem deleteTask_spec (id : String) (ts : List Task) :
    (id ∉ idsOf ts → deleteTask id ts = ts)
    ∧ ((idsOf ts).Nodup → id ∈ idsOf ts → (deleteTask id ts).length + 1 = ts.length)
    ∧ id ∉ idsOf (deleteTask id ts)
    ∧ (deleteTask id ts).Sublist ts
    ∧ (∀ t ∈ ts, t.id ≠ id → t ∈ deleteTask id ts) := by
  refine ⟨deleteTask_not_mem id ts, length_deleteTask id ts, deleteTask_id_not_mem id ts,
    List.filter_sublist ts, ?_⟩
  intro t ht hne
  simp [deleteTask, List.mem_filter, ht, bne_iff_ne, hne]

/-- Witness for C6: deleting the absent id `"9"`, then the present id
`"2"`, from the two-task example store. -/
theorem deleteTask_spec_witness :
    deleteTask "9" [exA, exB] = [exA, exB]
    ∧ (deleteTask "2" [exA, exB]).length + 1 = 2 :=
  ⟨(deleteTask_spec "9" [exA, exB]).1 (by decide),
   (deleteTask_spec "2" [exA, exB]).2.1 (by decide) (by decide)⟩

/-- `charToDigit` inverts `digitToChar` on decimal digits. -/
theorem charToDigit_digitToChar (d : Nat) (h : d < 10) :
    charToDigit (digitToChar d) = d := by
  interval_cases d <;> rfl

/-- The decimal digit-string codec round-trips every natural number. -/
theorem decNat_encNat (n : Nat) : decNat (encNat n) = n := by
  unfold decNat encNat
  rw [List.reverse_reverse, List.map_map]
  have h : ∀ d ∈ Nat.digits 10 n, (charToDigit ∘ digitToChar) d = d := fun d hd =>
    charToDigit_digitToChar d (Nat.digits_lt_base (by norm_num) hd)
  rw [List.map_congr_left h, List.map_id']
  exact_mod_cast Nat.ofDigits_digits 10 n

/-- The modelled date-to-text encoding round-trips every timestamp. -/
theorem dateDecode_dateEncode (t : Int) : dateDecode (dateEncode t) = t := by
  by_cases h : t < 0
  · have : dateDecode (dateEncode t) = -(decNat (encNat (Int.toNat (-t))) : Int) := by
      simp [dateEncode, h, dateDecode]
    rw [this, decNat_encNat]
    omega
  · have : dateDecode (dateEncode t) = (decNat (encNat (Int.toNat t)) : Int) := by
      simp [dateEncode, h, dateDecode]
    rw [this, decNat_encNat]
    omega

/-- The modelled date text is never the empty string (so the load code's
truthiness test does not discard it). -/
theorem dateEncode_ne_empty (t : Int) : dateEncode t ≠ "" := by
  unfold dateEncode
  by_cases h : t < 0 <;> simp [h, String.ext_iff]

/-- Serializing then reviving restores each task exactly. -/
theorem reviveTask_serializeTask (t : Task) : reviveTask (serializeTask t) = t := by
  obtain ⟨tid, ttext, tcomp, tdue⟩ := t
  cases tdue with
  | none => simp [reviveTask, serializeTask]
  | some due =>
    simp [reviveTask, serializeTask, dateEncode_ne_empty due, dateDecode_dateEncode]

/-- Serializing then reviving restores the whole task list. -/
theorem reviveTasks_serializeTasks (ts : List Task) :
    reviveTasks (serializeTasks ts) = ts := by
  unfold reviveTasks serializeTasks
  rw [List.map_map]
  have h : ∀ t ∈ ts, (reviveTask ∘ serializeTask) t = t := fun t _ =>
    reviveTask_serializeTask t
  rw [List.map_congr_left h, List.map_id']

/-- C7: a serialize/deserialize round trip through durable storage keeps
the length and, task by task, the id, text, completion flag, and due date
(compared by calendar day; absence of a due date is preserved too). -/
theorem serialize_roundtrip (ts : List Task) :
    (reviveTasks (serializeTasks ts)).length = ts.length
    ∧ (reviveTasks (serializeTasks ts)).map Task.id = ts.map Task.id
    ∧ (reviveTasks (serializeTasks ts)).map Task.text = ts.map Task.text
    ∧ (reviveTasks (serializeTasks ts)).map Task.completed = ts.map Task.completed
    ∧ (reviveTasks (serializeTasks ts)).map (fun t => t.dueDate.map calendarDay)
        = ts.map (fun t => t.dueDate.map calendarDay) := by
  rw [reviveTasks_serializeTasks]
  exact ⟨rfl, rfl, rfl, rfl, rfl⟩

/-- Toggling never changes the ids of the store. -/
theorem idsOf_toggleComplete (id : String) (ts : List Task) :
    idsOf (toggleComplete id ts) = idsOf ts := by
  unfold idsOf toggleComplete
  rw [List.map_map]
  exact List.map_congr_left (fun t _ => by by_cases h : t.id = id <;> simp [h])

/-- Deleting keeps a sublist of the ids of the store. -/
theorem idsOf_deleteTask_sublist (id : String) (ts : List Task) :
    (idsOf (deleteTask id ts)).Sublist (idsOf ts) :=
  List.Sublist.map Task.id (List.filter_sublist ts)

/-- C9 counterexample: ids come from `Date.now().toString()` with no
uniqueness check, so a store with distinct ids reaches a store with a
duplicated id after one add whose timestamp string matches an existing id
(two adds within one millisecond). -/
theorem uniqueIds_preserved_cex :
    (idsOf collideState.tasks).Nodup
    ∧ ¬ (idsOf (runActions collideState [Action.clickAdd "100"]).tasks).Nodup := by
  decide

/-- C9 (amended): starting from pairwise-distinct ids, every sequence of
interactions keeps the ids pairwise distinct, provided each add that
inserts a task reads a `Date.now()` string that is not already an id in
the store (adds in distinct milliseconds); the code itself never checks. -/
theorem uniqueIds_preserved (acts : List Action) (s : State)
    (h1 : (idsOf s.tasks).Nodup) (h2 : freshOk s acts = true) :
    (idsOf (runActions s acts).tasks).Nodup := by
  induction acts generalizing s with
  | nil => exact h1
  | cons a rest ih =>
    simp only [freshOk, Bool.and_eq_true] at h2
    refine ih (applyAction s a) ?_ h2.2
    cases a with
    | setInput v => exact h1
    | setDate d => exact h1
    | clickAdd now =>
      by_cases he : jsTrim s.inputValue = ""
      · have : applyAction s (Action.clickAdd now) = s := by
          simp [applyAction, addTask, he]
        rw [this]
        exact h1
      · have hmem : now ∉ idsOf s.tasks := by
          rcases Bool.or_eq_true _ _ |>.mp h2.1 with hc | hc
          · exact absurd (by simpa using hc) he
          · simpa using hc
        have htasks : (applyAction s (Action.clickAdd now)).tasks =
            s.tasks ++ [⟨now, jsTrim s.inputValue, false, s.selectedDate⟩] := by
          simp [applyAction, addTask, he]
        rw [htasks]
        unfold idsOf
        rw [List.map_append, List.nodup_append_comm]
        simp only [List.map_cons, List.map_nil, List.singleton_append, List.nodup_cons]
        exact ⟨by simpa [idsOf] using hmem, h1⟩
    | clickToggle id =>
      show (idsOf (toggleComplete id s.tasks)).Nodup
      rw [idsOf_toggleComplete]
      exact h1
    | clickDelete id =>
      exact (idsOf_deleteTask_sublist id s.tasks).nodup h1

/-- Witness for C9: the end-to-end example run keeps its three ids
distinct. -/
theorem uniqueIds_preserved_witness :
    (idsOf (runActions initialState exActions).tasks).Nodup :=
  uniqueIds_preserved exActions initialState (by decide) (by decide)

/-- Forgetting due dates commutes with toggling. -/
theorem projTask_toggleComplete (id : String) (ts : List Task) :
    (toggleComplete id ts).map projTask = toggleComplete1 id (ts.map projTask) := by
  unfold toggleComplete toggleComplete1
  rw [List.map_map, List.map_map]
  exact List.map_congr_left (fun t _ => by by_cases h : t.id = id <;> simp [h, projTask])

/-- Forgetting due dates commutes with deletion. -/
theorem projTask_deleteTask (id : String) (ts : List Task) :
    (deleteTask id ts).map projTask = deleteTask1 id (ts.map projTask) := by
  unfold deleteTask deleteTask1
  rw [List.filter_map]
  rfl

/-- Forgetting due dates commutes with every single interaction. -/
theorem projState_applyAction (s : State) (a : Action) :
    projState (applyAction s a) = applyAction1 (projState s) a := by
  cases a with
  | setInput v => rfl
  | setDate d => rfl
  | clickAdd now =>
    unfold applyAction applyAction1 addTask addTask1 projState
    by_cases he : jsTrim s.inputValue = "" <;> simp [he, projTask]
  | clickToggle id =>
    unfold applyAction applyAction1 projState
    simp only
    rw [projTask_toggleComplete]
  | clickDelete id =>
    unfold applyAction applyAction1 projState
    simp only
    rw [projTask_deleteTask]

/-- Forgetting due dates commutes with whole interaction sequences. -/
theorem projState_runActions (acts : List Action) (s : State) :
    projState (runActions s acts) = runActions1 (projState s) acts := by
  induction acts generalizing s with
  | nil => rfl
  | cons a rest ih =>
    show projState (runActions (applyAction s a) rest)
      = runActions1 (applyAction1 (projState s) a) rest
    rw [ih (applyAction s a), projState_applyAction]

/-- C10: on any interaction sequence (same texts and same minted ids),
version 1's task list is exactly the projection of version 2's task list
onto the fields id, text and completed. -/
theorem versions_agree (acts : List Action) (s : State) :
    (runActions1 (projState s) acts).tasks = ((runActions s acts).tasks).map projTask := by
  rw [← projState_runActions]
  rfl

/-- Everything in `insertBy lt x l` is `x` or came from `l`. -/
theorem mem_insertBy {α : Type} (lt : α → α → Bool) (x y : α) (l : List α) :
    y ∈ insertBy lt x l → y = x ∨ y ∈ l := by
  induction l with
  | nil =>
    intro h
    simp only [insertBy, List.mem_singleton] at h
    exact Or.inl h
  | cons z zs ih =>
    intro h
    simp only [insertBy] at h
    by_cases hlt : lt x z
    · rw [if_pos hlt] at h
      rcases List.mem_cons.mp h with h | h
      · exact Or.inl h
      · exact Or.inr h
    · rw [if_neg hlt] at h
      rcases List.mem_cons.mp h with h | h
      · exact Or.inr (by simp [h])
      · rcases ih h with h2 | h2
        · exact Or.inl h2
        · exact Or.inr (List.mem_cons_of_mem z h2)

/-- On an index-tagged pair whose left index is larger, the spec's
index-tiebroken strict order coincides with "the source comparator says
strictly smaller". -/
theorem specPairBefore_eq_compareTasks (x y : Task) (i j : Nat) (hij : j < i) :
    specPairBefore (i, x) (j, y) = decide (compareTasks x y < 0) := by
  have hnotij : ¬ i < j := by omega
  rcases hdx : x.dueDate with _ | da <;> rcases hdy : y.dueDate with _ | db <;>
    cases hx : x.completed <;> cases hy : y.completed <;>
      simp [specPairBefore, specCompare, compareTasks, hdx, hdy, hx, hy, hnotij] <;>
        (first
          | rfl
          | (split_ifs <;> simp_all))

/-- Dropping indices after inserting `(i, x)` is inserting `x`, provided
every index already present is smaller than `i`. -/
theorem map_snd_insertBy (x : Task) (i : Nat) (l : List (Nat × Task))
    (h : ∀ p ∈ l, p.1 < i) :
    (insertBy specPairBefore (i, x) l).map Prod.snd
      = insertBy (fun a b => decide (compareTasks a b < 0)) x (l.map Prod.snd) := by
  induction l with
  | nil => rfl
  | cons q qs ih =>
    have hq : q.1 < i := h q (List.mem_cons_self q qs)
    have heq : specPairBefore (i, x) q = decide (compareTasks x q.2 < 0) :=
      specPairBefore_eq_compareTasks x q.2 i q.1 hq
    simp only [insertBy, heq, List.map_cons]
    by_cases hb : decide (compareTasks x q.2 < 0) = true
    · rw [if_pos hb, if_pos hb]
      simp
    · rw [if_neg hb, if_neg hb]
      simp only [List.map_cons, List.cons.injEq, true_and]
      exact ih (fun p hp => h p (List.mem_cons_of_mem q hp))

/-- Dropping indices commutes with the whole index-tagged insertion sort,
as long as the accumulator's indices all precede the next fresh index. -/
theorem map_snd_foldl_insertBy (ts : List Task) (n : Nat) (acc : List (Nat × Task))
    (h : ∀ p ∈ acc, p.1 < n) :
    (List.foldl (fun a x => insertBy specPairBefore x a) acc (withIndices n ts)).map Prod.snd
      = List.foldl (fun a x => insertBy (fun a b => decide (compareTasks a b < 0)) x a)
          (acc.map Prod.snd) ts := by
  induction ts generalizing n acc with
  | nil => rfl
  | cons t rest ih =>
    simp only [withIndices, List.foldl_cons]
    have hacc : ∀ p ∈ insertBy specPairBefore (n, t) acc, p.1 < n + 1 := by
      intro p hp
      rcases mem_insertBy specPairBefore (n, t) p acc hp with hp | hp
      · rw [hp]
        exact Nat.lt_succ_self n
      · exact Nat.lt_succ_of_lt (h p hp)
    rw [ih (n + 1) (insertBy specPairBefore (n, t) acc) hacc,
      map_snd_insertBy t n acc h]

/-- C1: in sort mode `"deadline"`, `getSortedTasks` is exactly the stable
sort by the spec's lexicographic comparator — incomplete before
completed, then dated before undated, then ascending by date, remaining
ties by original position — and on the end-to-end example (add A with no
date, B due yesterday, C due tomorrow) it returns [B, C, A]. -/
theorem getSortedTasks_deadline_spec :
    (∀ tasks : List Task,
      getSortedTasks SortOption.deadline tasks = specDeadlineSort tasks)
    ∧ getSortedTasks SortOption.deadline (runActions initialState exActions).tasks
        = [exB, exC, exA] := by
  constructor
  · intro tasks
    unfold getSortedTasks specDeadlineSort sortStable
    rw [if_neg (by decide),
      map_snd_foldl_insertBy tasks 0 [] (fun p hp => absurd hp (List.not_mem_nil p))]
    rfl
  · decide

/-- C8: the startup load never propagates a failure: when the stored text
fails to parse, the failure is caught, the diagnostic is logged, and the
task list stays empty; an absent key also yields the empty list. -/
theorem load_malformed_fallback (msg : String) :
    loadFromStorage (some (Except.error msg)) =
      ([], ["Failed to parse tasks from localStorage"])
    ∧ loadFromStorage Option.none = ([], []) :=
  ⟨rfl, rfl⟩

end TodoList
